import Mathlib

/-!
Verification of the Sobel-filter core of `src/projects/sobel/src/main.rs`.

The Rust program operates on `image::GrayImage` values: 2-D grids of 8-bit
samples stored row-major (pixel `(x, y)` lives at buffer index
`y * width + x`), with `u32` dimensions.  The core consists of

* `get_pixel_luma_extended` / `put_pixel_luma_extended`: clamp-to-edge
  accessors; coordinates are `i32`, the clamp bound is computed as
  `width as i32 - 1`, and the clamped coordinate is cast back with `as u32`.
  We model the two wrapping casts exactly (`wrapI32`, `toU32`); `i32`
  subtraction is modelled as wrapping (release-profile semantics).
  `GrayImage::get_pixel` / `put_pixel` panic when the coordinate is out of
  bounds, which we model with `Option`.
* `convolve`: zips a 3×3 kernel with a 3×3 window, multiplies pointwise,
  sums, divides by 8.
* `sobel_filter`: clones the input, loops `x` over `0..(width as i32)` and
  `y` over `0..(height as i32)`, builds the window with nine extended reads,
  convolves with both kernels, and writes `sqrt(gx² + gy²)` back through the
  extended put.

`f32` arithmetic is modelled by exact arithmetic on `ℚ`: samples are
divided by 255, kernels and sums are rational.  The only irrational value,
the gradient magnitude `√(gx² + gy²)`, never exists on its own in the
observable behaviour: it is immediately multiplied by 255, truncated toward
zero and saturated to `[0, 255]` by the `as u8` cast.  That composite is
computed exactly by `magnitudeByte` (via the integer square root
`u8FloorSqrt`); the theorem `magnitudeByte_eq_floor_sqrt` below proves it
equal to `min 255 ⌊Real.sqrt (gx² + gy²) * 255⌋`.
-/

set_option maxRecDepth 8000

/-- The Rust `as i32` cast from an unbounded integer: wrap into
`[-2^31, 2^31)`. -/
def wrapI32 (z : ℤ) : ℤ := (z + 2 ^ 31) % 2 ^ 32 - 2 ^ 31

/-- The Rust `as u32` cast from `i32` (or any integer): wrap into
`[0, 2^32)`. -/
def toU32 (z : ℤ) : ℕ := (z % 2 ^ 32).toNat

/-- A grayscale image (`image::GrayImage`): `u32` dimensions and a row-major
buffer of 8-bit samples; pixel `(x, y)` is at index `y * width + x`. -/
structure Grid where
  width : ℕ
  height : ℕ
  data : List ℕ
deriving DecidableEq

/-- The representation invariant a real `GrayImage` satisfies: the buffer
holds exactly `width * height` samples, each sample fits in 8 bits, and the
dimensions fit in `u32`. -/
def Wellformed (g : Grid) : Prop :=
  g.data.length = g.width * g.height ∧ (∀ s ∈ g.data, s ≤ 255) ∧
    g.width < 2 ^ 32 ∧ g.height < 2 ^ 32

instance (g : Grid) : Decidable (Wellformed g) := by
  unfold Wellformed
  infer_instance

/-- `ImageBuffer::get_pixel`: panics (here: `none`) when `x ≥ width` or
`y ≥ height`, otherwise reads the sample at index `y * width + x`. -/
def Grid.get_pixel (g : Grid) (x y : ℕ) : Option ℕ :=
  if x < g.width ∧ y < g.height then g.data[y * g.width + x]? else none

/-- `ImageBuffer::put_pixel`: panics (here: `none`) when the coordinate or
the derived buffer index is out of bounds, otherwise stores the sample. -/
def Grid.put_pixel (g : Grid) (x y : ℕ) (s : ℕ) : Option Grid :=
  if x < g.width ∧ y < g.height then
    if y * g.width + x < g.data.length then
      some { g with data := g.data.set (y * g.width + x) s }
    else none
  else none

/-- The coordinate clamp used by both extended accessors:
`z.max(0).min(dim as i32 - 1) as u32` with wrapping casts. -/
def clampCoord (dim : ℕ) (z : ℤ) : ℕ :=
  toU32 (min (max z 0) (wrapI32 (wrapI32 dim - 1)))

/-- `get_pixel_luma_extended`: clamp both coordinates, read the sample,
divide by 255. -/
def Grid.get_pixel_luma_extended (g : Grid) (x y : ℤ) : Option ℚ :=
  (g.get_pixel (clampCoord g.width x) (clampCoord g.height y)).map
    fun (s : ℕ) => (s : ℚ) / 255

/-- The Rust `as u8` cast from a (finite, here: rational) float: truncate
toward zero and saturate into `[0, 255]`.  For nonnegative inputs the
truncation is `⌊·⌋`; negative inputs saturate to 0, which `Int.toNat`
produces as well. -/
def f32AsU8 (q : ℚ) : ℕ := min 255 ⌊q⌋.toNat

/-- `put_pixel_luma_extended`: clamp both coordinates, convert
`luma * 255.0` with `as u8`, store the sample. -/
def Grid.put_pixel_luma_extended (g : Grid) (x y : ℤ) (luma : ℚ) : Option Grid :=
  g.put_pixel (clampCoord g.width x) (clampCoord g.height y) (f32AsU8 (luma * 255))

/-- `SOBEL_KERNEL_X`. -/
def SOBEL_KERNEL_X : List (List ℚ) := [[-1, -2, -1], [0, 0, 0], [1, 2, 1]]

/-- `SOBEL_KERNEL_Y`. -/
def SOBEL_KERNEL_Y : List (List ℚ) := [[-1, 0, 1], [-2, 0, 2], [-1, 0, 1]]

/-- `convolve`: zip the kernel rows with the window rows, multiply
pointwise, sum everything, normalize by 8. -/
def convolve (kernel pixels : List (List ℚ)) : ℚ :=
  (((kernel.zip pixels).map fun p => (p.1.zip p.2).map fun q => q.1 * q.2).flatten).sum / 8

/-- Largest `k ≤ 255` with `k * k ≤ m`, i.e. `min 255 (Nat.sqrt m)`, written
as a structural computation so that it evaluates by `decide`. -/
def u8FloorSqrt (m : ℕ) : ℕ :=
  ((List.range 256).filter fun k => k * k ≤ m).foldl max 0

/-- The byte written for one output pixel: the Rust expression
`((gx.powi(2) + gy.powi(2)).sqrt() * 255.0) as u8` evaluated exactly.
Since `√s * 255 = √(s * 65025)` and the cast truncates toward zero and
saturates at 255, the result is `min 255 ⌊√(s * 65025)⌋ = u8FloorSqrt
⌊s * 65025⌋` (see `magnitudeByte_eq_floor_sqrt`). -/
def magnitudeByte (gx gy : ℚ) : ℕ :=
  u8FloorSqrt (Int.toNat ⌊(gx ^ 2 + gy ^ 2) * 65025⌋)

/-- `put_pixel_luma_extended` applied to the gradient magnitude
`√(gx² + gy²)`: clamp both coordinates and store `magnitudeByte gx gy`,
the exact value of the f32 write-back conversion. -/
def Grid.put_pixel_luma_magnitude (g : Grid) (x y : ℤ) (gx gy : ℚ) : Option Grid :=
  g.put_pixel (clampCoord g.width x) (clampCoord g.height y) (magnitudeByte gx gy)

/-- The 3×3 window `pixels` built by `sobel_filter` at `(x, y)`: row `i`
holds the extended reads at column offset `i - 1`, ordered by row offset. -/
def windowAt (g : Grid) (x y : ℤ) : Option (List (List ℚ)) := do
  let a ← g.get_pixel_luma_extended (x - 1) (y - 1)
  let b ← g.get_pixel_luma_extended (x - 1) y
  let c ← g.get_pixel_luma_extended (x - 1) (y + 1)
  let d ← g.get_pixel_luma_extended x (y - 1)
  let e ← g.get_pixel_luma_extended x y
  let f ← g.get_pixel_luma_extended x (y + 1)
  let g1 ← g.get_pixel_luma_extended (x + 1) (y - 1)
  let g2 ← g.get_pixel_luma_extended (x + 1) y
  let g3 ← g.get_pixel_luma_extended (x + 1) (y + 1)
  pure [[a, b, c], [d, e, f], [g1, g2, g3]]

/-- The body of the double loop in `sobel_filter`: build the window,
convolve with both kernels, write the magnitude into `res`.  The loop
coordinates are the nonnegative values of the `i32` loop variables, so they
are taken as `ℕ` and cast where the accessors expect `i32`. -/
def sobelBody (input res : Grid) (x y : ℕ) : Option Grid := do
  let pixels ← windowAt input x y
  res.put_pixel_luma_magnitude x y
    (convolve SOBEL_KERNEL_X pixels) (convolve SOBEL_KERNEL_Y pixels)

/-- `sobel_filter`: clone the input, then loop `x` over
`0..(input.width() as i32)` and `y` over `0..(input.height() as i32)`,
running `sobelBody` at each coordinate.  A nonpositive `as i32` bound gives
an empty loop, hence `(wrapI32 ·).toNat`. -/
def sobel_filter (input : Grid) : Option Grid :=
  (List.range (wrapI32 input.width).toNat).foldlM
    (fun res x =>
      (List.range (wrapI32 input.height).toNat).foldlM
        (fun res y => sobelBody input res x y) res)
    input

/-- The byte `sobel_filter` computes for the pixel at `(x, y)` (0 if the
window reads fail, which cannot happen on a nonempty grid). -/
def sobelByteAt (g : Grid) (x y : ℕ) : ℕ :=
  match windowAt g x y with
  | some pixels => magnitudeByte (convolve SOBEL_KERNEL_X pixels) (convolve SOBEL_KERNEL_Y pixels)
  | none => 0

/-- The mutable state of a `sobel_filter` call: the borrowed input image and
the result image being written.  Used to state that the loop never mutates
the input. -/
structure SobelSt where
  input : Grid
  result : Grid
deriving DecidableEq

/-- The loop body acting on the full state: reads go to `s.input`, the
write goes to `s.result`. -/
def sobelBodySt (s : SobelSt) (x y : ℕ) : Option SobelSt := do
  let pixels ← windowAt s.input x y
  let r ← s.result.put_pixel_luma_magnitude x y
    (convolve SOBEL_KERNEL_X pixels) (convolve SOBEL_KERNEL_Y pixels)
  pure ⟨s.input, r⟩

/-- `sobel_filter` as a state transformer: starts from the state
`⟨input, input.clone()⟩` and runs the double loop on it. -/
def sobel_filter_state (input : Grid) : Option SobelSt :=
  (List.range (wrapI32 input.width).toNat).foldlM
    (fun s x =>
      (List.range (wrapI32 input.height).toNat).foldlM
        (fun s y => sobelBodySt s x y) s)
    ⟨input, input⟩

/-- A legal `GrayImage` of width `2^31`: `width as i32` wraps to `-2^31`,
so the filter loop `0..(width as i32)` is empty. -/
def bigUniformGrid : Grid := Grid.mk (2 ^ 31) 1 (List.replicate (2 ^ 31) 7)

/-- A legal `GrayImage` of width `2^31 + 1` whose last sample differs from
the rest: the clamp bound `width as i32 - 1` is negative, so after the
`as u32` round trip every extended read lands on column `width - 1`. -/
def wideGrid : Grid := Grid.mk (2 ^ 31 + 1) 1 (List.replicate (2 ^ 31) 0 ++ [7])

/-- The 3×3 concrete scenario of the spec: a single bright pixel at the
center. -/
def crossGrid : Grid := Grid.mk 3 3 [0, 0, 0, 0, 255, 0, 0, 0, 0]

/-! ### Arithmetic helpers for the wrapping casts and the clamp -/

theorem wrapI32_toNat_of_lt {n : ℕ} (h : n < 2 ^ 31) : (wrapI32 n).toNat = n := by
  simp only [wrapI32]; omega

/-- For every `u32` width `w ≥ 1` and every `i32` coordinate, the clamped
coordinate is a valid column: when `w < 2^31` the bound `w - 1` is exact,
when `w = 2^31` the `i32` subtraction wraps to `2^31 - 1 = w - 1`, and when
`w > 2^31` the bound is negative but the final `as u32` adds `2^32` back,
landing on `w - 1` again. -/
theorem clampCoord_lt {w : ℕ} (h1 : 1 ≤ w) (h2 : w < 2 ^ 32) (z : ℤ) :
    clampCoord w z < w := by
  simp only [clampCoord, toU32, wrapI32]
  omega

/-- Below `2^31` no cast wraps and the clamp is the plain integer clamp
into `[0, w-1]`. -/
theorem clampCoord_eq_spec {w : ℕ} (h1 : 1 ≤ w) (h2 : w < 2 ^ 31) (z : ℤ) :
    clampCoord w z = (min (max z 0) ((w : ℤ) - 1)).toNat := by
  simp only [clampCoord, toU32, wrapI32]
  omega

/-- In-range coordinates are fixed by the clamp. -/
theorem clampCoord_self {w : ℕ} (h2 : w < 2 ^ 31) {z : ℤ} (hz0 : 0 ≤ z)
    (hzw : z < w) : clampCoord w z = z.toNat := by
  simp only [clampCoord, toU32, wrapI32]
  omega

theorem index_lt {x y w h : ℕ} (hx : x < w) (hy : y < h) : y * w + x < w * h :=
  calc y * w + x < y * w + w := by omega
  _ = (y + 1) * w := by ring
  _ ≤ h * w := Nat.mul_le_mul_right w hy
  _ = w * h := Nat.mul_comm h w

theorem index_inj {a x b y w : ℕ} (ha : a < w) (hx : x < w)
    (h : b * w + a = y * w + x) : a = x ∧ b = y := by
  have hw : 0 < w := Nat.lt_of_le_of_lt (Nat.zero_le a) ha
  have hb : (w * b + a) / w = b + a / w := Nat.mul_add_div hw b a
  have hy' : (w * y + x) / w = y + x / w := Nat.mul_add_div hw y x
  have ha0 : a / w = 0 := Nat.div_eq_of_lt ha
  have hx0 : x / w = 0 := Nat.div_eq_of_lt hx
  have hby : b = y := by
    have : (w * b + a) / w = (w * y + x) / w := by
      rw [Nat.mul_comm w b, Nat.mul_comm w y]; rw [h]
    omega
  subst hby
  constructor
  · omega
  · rfl

/-! ### Facts about `u8FloorSqrt` and `magnitudeByte` -/

theorem foldl_max_le {n : ℕ} : ∀ (l : List ℕ) (b : ℕ), b ≤ n → (∀ x ∈ l, x ≤ n) →
    l.foldl max b ≤ n := by
  intro l
  induction l with
  | nil => intro b hb _; exact hb
  | cons y t ih =>
    intro b hb hl
    simp only [List.foldl_cons]
    exact ih (max b y) (max_le hb (hl y (List.mem_cons_self y t)))
      fun x hx => hl x (List.mem_cons_of_mem y hx)

theorem init_le_foldl_max : ∀ (l : List ℕ) (b : ℕ), b ≤ l.foldl max b := by
  intro l
  induction l with
  | nil => intro b; exact le_refl b
  | cons y t ih =>
    intro b
    simp only [List.foldl_cons]
    exact le_trans (le_max_left b y) (ih (max b y))

theorem le_foldl_max {x : ℕ} : ∀ (l : List ℕ) (b : ℕ), x ∈ l → x ≤ l.foldl max b := by
  intro l
  induction l with
  | nil => intro b hx; cases hx
  | cons y t ih =>
    intro b hx
    simp only [List.foldl_cons]
    rcases List.mem_cons.mp hx with rfl | hx
    · exact le_trans (le_max_right b x) (init_le_foldl_max t (max b x))
    · exact ih (max b y) hx

theorem u8FloorSqrt_le (m : ℕ) : u8FloorSqrt m ≤ 255 := by
  refine foldl_max_le _ 0 (Nat.zero_le _) fun x hx => ?_
  have := (List.mem_filter.mp hx).1
  have := List.mem_range.mp this
  omega

/-- `u8FloorSqrt` computes `min 255 (Nat.sqrt m)`. -/
theorem u8FloorSqrt_eq (m : ℕ) : u8FloorSqrt m = min 255 (Nat.sqrt m) := by
  apply le_antisymm
  · refine foldl_max_le _ 0 (Nat.zero_le _) fun x hx => ?_
    rcases List.mem_filter.mp hx with ⟨hr, hp⟩
    have hx255 : x ≤ 255 := by have := List.mem_range.mp hr; omega
    have hxs : x ≤ Nat.sqrt m := Nat.le_sqrt.mpr (of_decide_eq_true hp)
    omega
  · apply le_foldl_max
    apply List.mem_filter.mpr
    constructor
    · exact List.mem_range.mpr (by omega)
    · apply decide_eq_true
      have h1 : min 255 (Nat.sqrt m) ≤ Nat.sqrt m := min_le_right _ _
      calc min 255 (Nat.sqrt m) * min 255 (Nat.sqrt m)
          ≤ Nat.sqrt m * Nat.sqrt m := Nat.mul_le_mul h1 h1
      _ ≤ m := Nat.sqrt_le m

/-- Once the radicand reaches `255² = 65025` the byte saturates at 255. -/
theorem u8FloorSqrt_sat {m : ℕ} (h : 65025 ≤ m) : u8FloorSqrt m = 255 := by
  apply le_antisymm (u8FloorSqrt_le m)
  apply le_foldl_max
  apply List.mem_filter.mpr
  exact ⟨List.mem_range.mpr (by omega), decide_eq_true (by omega)⟩

theorem magnitudeByte_zero : magnitudeByte 0 0 = 0 := by
  have h : ((0 : ℚ) ^ 2 + 0 ^ 2) * 65025 = 0 := by norm_num
  simp only [magnitudeByte, h, Int.floor_zero, Int.toNat_zero]
  decide

/-! ### The extended read never fails on a nonempty grid -/

/-- On a nonempty wellformed grid, every extended read returns the
normalized value of some stored sample. -/
theorem get_luma_eq (g : Grid) (hlen : g.data.length = g.width * g.height)
    (hw1 : 1 ≤ g.width) (hw2 : g.width < 2 ^ 32)
    (hh1 : 1 ≤ g.height) (hh2 : g.height < 2 ^ 32) (x y : ℤ) :
    ∃ s ∈ g.data, g.get_pixel_luma_extended x y = some ((s : ℚ) / 255) := by
  have hx := clampCoord_lt hw1 hw2 x
  have hy := clampCoord_lt hh1 hh2 y
  have hidx : clampCoord g.height y * g.width + clampCoord g.width x < g.data.length := by
    rw [hlen]; exact index_lt hx hy
  have hget : g.get_pixel (clampCoord g.width x) (clampCoord g.height y) =
      some (g.data[clampCoord g.height y * g.width + clampCoord g.width x]) := by
    rw [Grid.get_pixel, if_pos (And.intro hx hy)]
    exact List.getElem?_eq_getElem hidx
  refine ⟨g.data[clampCoord g.height y * g.width + clampCoord g.width x],
    List.getElem_mem hidx, ?_⟩
  rw [Grid.get_pixel_luma_extended, hget]
  rfl

/-- On a nonempty grid all of whose samples are `v`, every extended read
returns `v / 255`. -/
theorem get_luma_uniform (g : Grid) {v : ℕ} (hu : ∀ s ∈ g.data, s = v)
    (hlen : g.data.length = g.width * g.height)
    (hw1 : 1 ≤ g.width) (hw2 : g.width < 2 ^ 32)
    (hh1 : 1 ≤ g.height) (hh2 : g.height < 2 ^ 32) (x y : ℤ) :
    g.get_pixel_luma_extended x y = some ((v : ℚ) / 255) := by
  obtain ⟨s, hs, heq⟩ := get_luma_eq g hlen hw1 hw2 hh1 hh2 x y
  rw [heq, hu s hs]

/-- On a nonempty wellformed grid the 3×3 window always gets built. -/
theorem windowAt_some (g : Grid) (hlen : g.data.length = g.width * g.height)
    (hw1 : 1 ≤ g.width) (hw2 : g.width < 2 ^ 32)
    (hh1 : 1 ≤ g.height) (hh2 : g.height < 2 ^ 32) (x y : ℤ) :
    ∃ pixels, windowAt g x y = some pixels := by
  obtain ⟨a, -, ha⟩ := get_luma_eq g hlen hw1 hw2 hh1 hh2 (x - 1) (y - 1)
  obtain ⟨b, -, hb⟩ := get_luma_eq g hlen hw1 hw2 hh1 hh2 (x - 1) y
  obtain ⟨c, -, hc⟩ := get_luma_eq g hlen hw1 hw2 hh1 hh2 (x - 1) (y + 1)
  obtain ⟨d, -, hd⟩ := get_luma_eq g hlen hw1 hw2 hh1 hh2 x (y - 1)
  obtain ⟨e, -, he⟩ := get_luma_eq g hlen hw1 hw2 hh1 hh2 x y
  obtain ⟨f, -, hf⟩ := get_luma_eq g hlen hw1 hw2 hh1 hh2 x (y + 1)
  obtain ⟨i1, -, hi1⟩ := get_luma_eq g hlen hw1 hw2 hh1 hh2 (x + 1) (y - 1)
  obtain ⟨i2, -, hi2⟩ := get_luma_eq g hlen hw1 hw2 hh1 hh2 (x + 1) y
  obtain ⟨i3, -, hi3⟩ := get_luma_eq g hlen hw1 hw2 hh1 hh2 (x + 1) (y + 1)
  refine ⟨[[(a : ℚ) / 255, (b : ℚ) / 255, (c : ℚ) / 255],
           [(d : ℚ) / 255, (e : ℚ) / 255, (f : ℚ) / 255],
           [(i1 : ℚ) / 255, (i2 : ℚ) / 255, (i3 : ℚ) / 255]], ?_⟩
  simp only [windowAt, ha, hb, hc, hd, he, hf, hi1, hi2, hi3, Option.bind_eq_bind,
    Option.some_bind]
  rfl

/-- On a nonempty uniform grid the window is constant. -/
theorem windowAt_uniform (g : Grid) {v : ℕ} (hu : ∀ s ∈ g.data, s = v)
    (hlen : g.data.length = g.width * g.height)
    (hw1 : 1 ≤ g.width) (hw2 : g.width < 2 ^ 32)
    (hh1 : 1 ≤ g.height) (hh2 : g.height < 2 ^ 32) (x y : ℤ) :
    windowAt g x y =
      some [[(v : ℚ) / 255, (v : ℚ) / 255, (v : ℚ) / 255],
            [(v : ℚ) / 255, (v : ℚ) / 255, (v : ℚ) / 255],
            [(v : ℚ) / 255, (v : ℚ) / 255, (v : ℚ) / 255]] := by
  have h := get_luma_uniform g hu hlen hw1 hw2 hh1 hh2
  simp only [windowAt, h, Option.bind_eq_bind, Option.some_bind]
  rfl

/-! ### Convolution facts -/

/-- A constant window has zero horizontal gradient: the kernel weights of
`Kx` cancel. -/
theorem convolve_kx_const (q : ℚ) :
    convolve SOBEL_KERNEL_X [[q, q, q], [q, q, q], [q, q, q]] = 0 := by
  simp only [convolve, SOBEL_KERNEL_X, List.zip_cons_cons, List.zip_nil_left,
    List.zip_nil_right, List.map_cons, List.map_nil, List.flatten, List.append_nil,
    List.sum_cons, List.sum_nil, List.sum_append]
  ring

/-- A constant window has zero vertical gradient. -/
theorem convolve_ky_const (q : ℚ) :
    convolve SOBEL_KERNEL_Y [[q, q, q], [q, q, q], [q, q, q]] = 0 := by
  simp only [convolve, SOBEL_KERNEL_Y, List.zip_cons_cons, List.zip_nil_left,
    List.zip_nil_right, List.map_cons, List.map_nil, List.flatten, List.append_nil,
    List.sum_cons, List.sum_nil, List.sum_append]
  ring

/-! ### Writes at in-range coordinates -/

/-- At an in-range coordinate of a wellformed grid below the `i32` wrap
threshold, the magnitude write succeeds and sets exactly one buffer cell. -/
theorem put_magnitude_eq (res : Grid) (hw2 : res.width < 2 ^ 31)
    (hh2 : res.height < 2 ^ 31) {x y : ℕ} (hx : x < res.width) (hy : y < res.height)
    (hlen : res.data.length = res.width * res.height) (gx gy : ℚ) :
    res.put_pixel_luma_magnitude x y gx gy =
      some { res with data := res.data.set (y * res.width + x) (magnitudeByte gx gy) } := by
  have hcx : clampCoord res.width (x : ℤ) = x := by
    rw [clampCoord_self hw2 (Int.ofNat_nonneg x) (by exact_mod_cast hx)]
    exact Int.toNat_natCast x
  have hcy : clampCoord res.height (y : ℤ) = y := by
    rw [clampCoord_self hh2 (Int.ofNat_nonneg y) (by exact_mod_cast hy)]
    exact Int.toNat_natCast y
  have hidx : y * res.width + x < res.data.length := by
    rw [hlen]; exact index_lt hx hy
  simp only [Grid.put_pixel_luma_magnitude, hcx, hcy, Grid.put_pixel]
  rw [if_pos (And.intro hx hy), if_pos hidx]

/-- Reading back after a single-cell write: the written coordinate holds the
new sample, all others are unchanged. -/
theorem get_pixel_set (res : Grid) {x y a b : ℕ} (hx : x < res.width)
    (hy : y < res.height) (ha : a < res.width) (hb : b < res.height)
    (hlen : res.data.length = res.width * res.height) (s : ℕ) :
    ({ res with data := res.data.set (y * res.width + x) s } : Grid).get_pixel a b =
      if a = x ∧ b = y then some s else res.get_pixel a b := by
  have hidx : y * res.width + x < res.data.length := by
    rw [hlen]; exact index_lt hx hy
  simp only [Grid.get_pixel]
  rw [if_pos (And.intro ha hb), if_pos (And.intro ha hb)]
  by_cases hab : a = x ∧ b = y
  · rcases hab with ⟨rfl, rfl⟩
    rw [if_pos (And.intro rfl rfl)]
    exact List.getElem?_set_self hidx
  · rw [if_neg hab]
    apply List.getElem?_set_ne
    intro hcontra
    exact hab (index_inj ha hx hcontra.symm)

/-! ### Characterizing the double loop -/

/-- Running the inner (`y`) loop at column `x` writes `sobelByteAt` into
every visited coordinate of that column and leaves everything else
untouched; it never fails and preserves dimensions and buffer length. -/
theorem innerFold_spec (g : Grid) (hlen : g.data.length = g.width * g.height)
    (hw1 : 1 ≤ g.width) (hw2 : g.width < 2 ^ 31)
    (hh1 : 1 ≤ g.height) (hh2 : g.height < 2 ^ 31)
    {x : ℕ} (hx : x < g.width) :
    ∀ (ys : List ℕ) (res : Grid),
      res.width = g.width → res.height = g.height →
      res.data.length = g.data.length → (∀ y ∈ ys, y < g.height) →
      ∃ res', ys.foldlM (fun r y => sobelBody g r x y) res = some res' ∧
        res'.width = g.width ∧ res'.height = g.height ∧
        res'.data.length = g.data.length ∧
        ∀ a b : ℕ, a < g.width → b < g.height →
          res'.get_pixel a b =
            if a = x ∧ b ∈ ys then some (sobelByteAt g a b)
            else res.get_pixel a b := by
  have hw2' : g.width < 2 ^ 32 := lt_trans hw2 (by norm_num)
  have hh2' : g.height < 2 ^ 32 := lt_trans hh2 (by norm_num)
  intro ys
  induction ys with
  | nil =>
    intro res hrw hrh hrl _
    refine ⟨res, by simp [List.foldlM_nil], hrw, hrh, hrl, ?_⟩
    intro a b _ _
    simp
  | cons y ys ih =>
    intro res hrw hrh hrl hys
    have hy : y < g.height := hys y (List.mem_cons_self y ys)
    obtain ⟨pixels, hwin⟩ := windowAt_some g hlen hw1 hw2' hh1 hh2' x y
    have hxres : x < res.width := by rw [hrw]; exact hx
    have hyres : y < res.height := by rw [hrh]; exact hy
    have hlenres : res.data.length = res.width * res.height := by
      rw [hrw, hrh, hrl, hlen]
    have hput := put_magnitude_eq res (by rw [hrw]; exact hw2) (by rw [hrh]; exact hh2)
      hxres hyres hlenres
      (convolve SOBEL_KERNEL_X pixels) (convolve SOBEL_KERNEL_Y pixels)
    set mb := magnitudeByte (convolve SOBEL_KERNEL_X pixels) (convolve SOBEL_KERNEL_Y pixels)
      with hmb
    set res1 := ({ res with data := res.data.set (y * res.width + x) mb } : Grid) with hres1
    have hstep : sobelBody g res x y = some res1 := by
      rw [sobelBody, hwin, Option.bind_eq_bind, Option.some_bind, hput]
    have hbyte : sobelByteAt g x y = mb := by
      rw [sobelByteAt, hwin]
    obtain ⟨res', hfold, hw', hh', hl', hchar⟩ := ih res1
      (by rw [hres1]; exact hrw) (by rw [hres1]; exact hrh)
      (by rw [hres1]; simpa using hrl)
      (fun y' hy' => hys y' (List.mem_cons_of_mem y hy'))
    refine ⟨res', ?_, hw', hh', hl', ?_⟩
    · rw [List.foldlM_cons, hstep]
      exact hfold
    · intro a b ha hb
      have hget1 : res1.get_pixel a b = if a = x ∧ b = y then some mb else res.get_pixel a b :=
        get_pixel_set res hxres hyres (by rw [hrw]; exact ha) (by rw [hrh]; exact hb)
          hlenres mb
      rw [hchar a b ha hb]
      by_cases hax : a = x
      · subst hax
        by_cases hbys : b ∈ ys
        · rw [if_pos (And.intro rfl hbys), if_pos (And.intro rfl (List.mem_cons_of_mem y hbys))]
        · rw [if_neg (fun hc => hbys hc.2), hget1]
          by_cases hby : b = y
          · subst hby
            rw [if_pos (And.intro rfl rfl), if_pos (And.intro rfl (List.mem_cons_self b ys))]
            rw [hbyte]
          · rw [if_neg (fun hc => hby hc.2),
              if_neg (fun hc => (List.mem_cons.mp hc.2).elim hby hbys)]
      · rw [if_neg (fun hc => hax hc.1), hget1, if_neg (fun hc => hax hc.1),
          if_neg (fun hc => hax hc.1)]

/-- Running the outer (`x`) loop over a set of columns fills the visited
columns with `sobelByteAt` and leaves the rest of the buffer unchanged. -/
theorem outerFold_spec (g : Grid) (hlen : g.data.length = g.width * g.height)
    (hw1 : 1 ≤ g.width) (hw2 : g.width < 2 ^ 31)
    (hh1 : 1 ≤ g.height) (hh2 : g.height < 2 ^ 31) :
    ∀ (xs : List ℕ) (res : Grid),
      res.width = g.width → res.height = g.height →
      res.data.length = g.data.length → (∀ x ∈ xs, x < g.width) →
      ∃ res', xs.foldlM (fun r x => (List.range (wrapI32 g.height).toNat).foldlM
          (fun r y => sobelBody g r x y) r) res = some res' ∧
        res'.width = g.width ∧ res'.height = g.height ∧
        res'.data.length = g.data.length ∧
        ∀ a b : ℕ, a < g.width → b < g.height →
          res'.get_pixel a b =
            if a ∈ xs then some (sobelByteAt g a b)
            else res.get_pixel a b := by
  intro xs
  induction xs with
  | nil =>
    intro res hrw hrh hrl _
    refine ⟨res, by simp [List.foldlM_nil], hrw, hrh, hrl, ?_⟩
    intro a b _ _
    simp
  | cons x xs ih =>
    intro res hrw hrh hrl hxs
    have hx : x < g.width := hxs x (List.mem_cons_self x xs)
    have hrange : (wrapI32 g.height).toNat = g.height := wrapI32_toNat_of_lt hh2
    obtain ⟨res1, hfold1, hw1', hh1', hl1', hchar1⟩ :=
      innerFold_spec g hlen hw1 hw2 hh1 hh2 hx (List.range (wrapI32 g.height).toNat) res
        hrw hrh hrl (fun y hy => by
          rw [hrange] at hy
          exact List.mem_range.mp hy)
    obtain ⟨res', hfold, hw', hh', hl', hchar⟩ := ih res1 hw1' hh1' hl1'
      (fun x' hx' => hxs x' (List.mem_cons_of_mem x hx'))
    refine ⟨res', ?_, hw', hh', hl', ?_⟩
    · rw [List.foldlM_cons, hfold1]
      exact hfold
    · intro a b ha hb
      rw [hchar a b ha hb]
      by_cases hax : a ∈ xs
      · rw [if_pos hax, if_pos (List.mem_cons_of_mem x hax)]
      · rw [if_neg hax, hchar1 a b ha hb]
        by_cases hax' : a = x
        · subst hax'
          rw [if_pos (And.intro rfl (by rw [hrange]; exact List.mem_range.mpr hb)),
            if_pos (List.mem_cons_self a xs)]
        · rw [if_neg (fun hc => hax' hc.1),
            if_neg (fun hc => (List.mem_cons.mp hc).elim hax' hax)]

/-- Master characterization of `sobel_filter` on a nonempty grid whose
dimensions are below the `i32` wrap threshold: it succeeds, preserves
dimensions and buffer length, and every pixel of the output holds
`sobelByteAt` of the input. -/
theorem sobel_filter_spec (g : Grid) (hlen : g.data.length = g.width * g.height)
    (hw1 : 1 ≤ g.width) (hw2 : g.width < 2 ^ 31)
    (hh1 : 1 ≤ g.height) (hh2 : g.height < 2 ^ 31) :
    ∃ out, sobel_filter g = some out ∧ out.width = g.width ∧
      out.height = g.height ∧ out.data.length = g.data.length ∧
      ∀ a b : ℕ, a < g.width → b < g.height →
        out.get_pixel a b = some (sobelByteAt g a b) := by
  obtain ⟨out, hfold, hw', hh', hl', hchar⟩ :=
    outerFold_spec g hlen hw1 hw2 hh1 hh2 (List.range (wrapI32 g.width).toNat) g
      rfl rfl rfl (fun x hx => by
        rw [wrapI32_toNat_of_lt hw2] at hx
        exact List.mem_range.mp hx)
  refine ⟨out, hfold, hw', hh', hl', ?_⟩
  intro a b ha hb
  rw [hchar a b ha hb,
    if_pos (by rw [wrapI32_toNat_of_lt hw2]; exact List.mem_range.mpr ha)]

/-! ### Degenerate dimensions -/

theorem outerFold_inner_nil (g : Grid) : ∀ (l : List ℕ) (r : Grid),
    l.foldlM (fun res x => (List.range 0).foldlM (fun res y => sobelBody g res x y) res) r
      = some r := by
  intro l
  induction l with
  | nil => intro r; rfl
  | cons x xs ih =>
    intro r
    rw [List.foldlM_cons]
    simp only [List.range_zero, List.foldlM_nil, pure, Option.bind_eq_bind, Option.some_bind]
    exact ih r

/-- With a zero dimension both `0..(dim as i32)` ranges are empty, so the
filter returns the untouched clone of the input. -/
theorem sobel_filter_degenerate (g : Grid) (h : g.width = 0 ∨ g.height = 0) :
    sobel_filter g = some g := by
  have h0 : (wrapI32 ((0 : ℕ) : ℤ)).toNat = 0 := by decide
  rcases h with hw | hh
  · rw [sobel_filter, hw, h0, List.range_zero, List.foldlM_nil]
    rfl
  · rw [sobel_filter, hh, h0, List.range_zero]
    exact outerFold_inner_nil g _ g

/-! ### Dimension preservation, unconditionally -/

theorem put_pixel_dims {g g' : Grid} {x y s : ℕ} (h : g.put_pixel x y s = some g') :
    g'.width = g.width ∧ g'.height = g.height := by
  rw [Grid.put_pixel] at h
  by_cases h1 : x < g.width ∧ y < g.height
  · rw [if_pos h1] at h
    by_cases h2 : y * g.width + x < g.data.length
    · rw [if_pos h2] at h
      cases h
      exact ⟨rfl, rfl⟩
    · rw [if_neg h2] at h; cases h
  · rw [if_neg h1] at h; cases h

theorem sobelBody_dims {input res res' : Grid} {x y : ℕ}
    (h : sobelBody input res x y = some res') :
    res'.width = res.width ∧ res'.height = res.height := by
  rw [sobelBody] at h
  cases hwin : windowAt input x y with
  | none => rw [hwin] at h; cases h
  | some pixels =>
    rw [hwin, Option.bind_eq_bind, Option.some_bind] at h
    exact put_pixel_dims h

theorem innerFold_dims (g : Grid) (x : ℕ) : ∀ (ys : List ℕ) (res out : Grid),
    ys.foldlM (fun r y => sobelBody g r x y) res = some out →
    out.width = res.width ∧ out.height = res.height := by
  intro ys
  induction ys with
  | nil =>
    intro res out h
    rw [List.foldlM_nil] at h
    cases h
    exact ⟨rfl, rfl⟩
  | cons y ys ih =>
    intro res out h
    rw [List.foldlM_cons] at h
    cases hstep : sobelBody g res x y with
    | none => rw [hstep] at h; cases h
    | some mid =>
      rw [hstep, Option.bind_eq_bind, Option.some_bind] at h
      obtain ⟨h1, h2⟩ := ih mid out h
      obtain ⟨h3, h4⟩ := sobelBody_dims hstep
      exact ⟨h1.trans h3, h2.trans h4⟩

theorem outerFold_dims (g : Grid) (n : ℕ) : ∀ (xs : List ℕ) (res out : Grid),
    xs.foldlM (fun r x => (List.range n).foldlM (fun r y => sobelBody g r x y) r) res
      = some out →
    out.width = res.width ∧ out.height = res.height := by
  intro xs
  induction xs with
  | nil =>
    intro res out h
    rw [List.foldlM_nil] at h
    cases h
    exact ⟨rfl, rfl⟩
  | cons x xs ih =>
    intro res out h
    rw [List.foldlM_cons] at h
    cases hstep : (List.range n).foldlM (fun r y => sobelBody g r x y) res with
    | none => rw [hstep] at h; cases h
    | some mid =>
      rw [hstep, Option.bind_eq_bind, Option.some_bind] at h
      obtain ⟨h1, h2⟩ := ih mid out h
      obtain ⟨h3, h4⟩ := innerFold_dims g x (List.range n) res mid hstep
      exact ⟨h1.trans h3, h2.trans h4⟩

/-- Whatever grid `sobel_filter` returns has the input's dimensions: the
initial value of the fold is the clone and every write preserves the
dimension fields. -/
theorem sobel_filter_dims {g out : Grid} (h : sobel_filter g = some out) :
    out.width = g.width ∧ out.height = g.height :=
  outerFold_dims g _ _ g out h

/-! ### The state model simulates the functional model -/

theorem sobelBodySt_eq (inp r : Grid) (x y : ℕ) :
    sobelBodySt ⟨inp, r⟩ x y = (sobelBody inp r x y).map fun r' => (⟨inp, r'⟩ : SobelSt) := by
  rw [sobelBodySt, sobelBody]
  cases hwin : windowAt inp x y with
  | none => simp [hwin]
  | some pixels =>
    simp only [hwin, Option.bind_eq_bind, Option.some_bind]
    cases hput : r.put_pixel_luma_magnitude x y
        (convolve SOBEL_KERNEL_X pixels) (convolve SOBEL_KERNEL_Y pixels) with
    | none => simp [hput]
    | some r1 => simp [hput, pure]

theorem innerFold_sim (inp : Grid) (x : ℕ) : ∀ (ys : List ℕ) (r : Grid),
    ys.foldlM (fun s y => sobelBodySt s x y) (⟨inp, r⟩ : SobelSt) =
      (ys.foldlM (fun r' y => sobelBody inp r' x y) r).map fun r' => (⟨inp, r'⟩ : SobelSt) := by
  intro ys
  induction ys with
  | nil => intro r; rfl
  | cons y ys ih =>
    intro r
    rw [List.foldlM_cons, List.foldlM_cons, sobelBodySt_eq]
    cases hstep : sobelBody inp r x y with
    | none => simp [hstep]
    | some mid =>
      simp only [hstep, Option.map_some', Option.bind_eq_bind, Option.some_bind]
      exact ih mid

theorem outerFold_sim (g : Grid) (n : ℕ) : ∀ (xs : List ℕ) (r : Grid),
    xs.foldlM (fun s x => (List.range n).foldlM (fun s y => sobelBodySt s x y) s)
        (⟨g, r⟩ : SobelSt) =
      (xs.foldlM (fun r' x => (List.range n).foldlM (fun r' y => sobelBody g r' x y) r') r).map
        fun r' => (⟨g, r'⟩ : SobelSt) := by
  intro xs
  induction xs with
  | nil => intro r; rfl
  | cons x xs ih =>
    intro r
    rw [List.foldlM_cons, List.foldlM_cons, innerFold_sim]
    cases hstep : (List.range n).foldlM (fun r' y => sobelBody g r' x y) r with
    | none => simp [hstep]
    | some mid =>
      simp only [hstep, Option.map_some', Option.bind_eq_bind, Option.some_bind]
      exact ih mid

/-- The state-passing model agrees with the functional model and keeps the
input component untouched throughout. -/
theorem sobel_filter_state_eq (g : Grid) :
    sobel_filter_state g = (sobel_filter g).map fun r => (⟨g, r⟩ : SobelSt) :=
  outerFold_sim g _ _ g

/-! ### Uniform grids -/

/-- On a nonempty uniform grid every computed output byte is 0: the window
is constant, both convolutions vanish exactly, and `⌊√0 · 255⌋ = 0`. -/
theorem sobelByteAt_uniform (g : Grid) {v : ℕ} (hu : ∀ s ∈ g.data, s = v)
    (hlen : g.data.length = g.width * g.height)
    (hw1 : 1 ≤ g.width) (hw2 : g.width < 2 ^ 32)
    (hh1 : 1 ≤ g.height) (hh2 : g.height < 2 ^ 32) (x y : ℕ) :
    sobelByteAt g x y = 0 := by
  rw [sobelByteAt, windowAt_uniform g hu hlen hw1 hw2 hh1 hh2 x y]
  show magnitudeByte (convolve SOBEL_KERNEL_X _) (convolve SOBEL_KERNEL_Y _) = 0
  rw [convolve_kx_const, convolve_ky_const]
  exact magnitudeByte_zero

/-! ### `magnitudeByte` really is the saturated truncation of `√s · 255` -/

/-- Truncating the real square root of a nonnegative number is the natural
square root of its truncation. -/
theorem floor_sqrt_toNat (x : ℝ) (hx : 0 ≤ x) :
    (⌊Real.sqrt x⌋).toNat = Nat.sqrt (⌊x⌋).toNat := by
  have hsq : 0 ≤ Real.sqrt x := Real.sqrt_nonneg x
  have hfl : 0 ≤ ⌊Real.sqrt x⌋ := Int.floor_nonneg.mpr hsq
  have hflx : 0 ≤ ⌊x⌋ := Int.floor_nonneg.mpr hx
  apply Nat.le_antisymm
  · apply Nat.le_sqrt.mpr
    have h1 : ((⌊Real.sqrt x⌋.toNat : ℝ)) ≤ Real.sqrt x := by
      rw [show ((⌊Real.sqrt x⌋.toNat : ℝ)) = ((⌊Real.sqrt x⌋.toNat : ℤ) : ℝ) by push_cast; ring,
        Int.toNat_of_nonneg hfl]
      exact Int.floor_le _
    have h2 : ((⌊Real.sqrt x⌋.toNat * ⌊Real.sqrt x⌋.toNat : ℕ) : ℝ) ≤ x := by
      push_cast
      calc (⌊Real.sqrt x⌋.toNat : ℝ) * (⌊Real.sqrt x⌋.toNat : ℝ)
          ≤ Real.sqrt x * Real.sqrt x := by
            apply mul_le_mul h1 h1 (by positivity) hsq
      _ = x := Real.mul_self_sqrt hx
    have h3 : ((⌊Real.sqrt x⌋.toNat * ⌊Real.sqrt x⌋.toNat : ℕ) : ℤ) ≤ ⌊x⌋ :=
      Int.le_floor.mpr (by exact_mod_cast h2)
    omega
  · have h1 : Nat.sqrt (⌊x⌋).toNat * Nat.sqrt (⌊x⌋).toNat ≤ (⌊x⌋).toNat :=
      Nat.sqrt_le _
    have hz : ((Nat.sqrt (⌊x⌋).toNat * Nat.sqrt (⌊x⌋).toNat : ℕ) : ℤ) ≤ ⌊x⌋ := by omega
    have h2 : ((Nat.sqrt (⌊x⌋).toNat * Nat.sqrt (⌊x⌋).toNat : ℕ) : ℝ) ≤ x := by
      have := Int.le_floor.mp hz
      exact_mod_cast this
    have h3 : ((Nat.sqrt (⌊x⌋).toNat : ℝ)) ≤ Real.sqrt x := by
      apply Real.le_sqrt_of_sq_le
      rw [sq]
      exact_mod_cast h2
    have h4 : ((Nat.sqrt (⌊x⌋).toNat : ℤ)) ≤ ⌊Real.sqrt x⌋ :=
      Int.le_floor.mpr (by exact_mod_cast h3)
    omega

/-- `magnitudeByte` equals the Rust write-back conversion of the exact
gradient magnitude: `(√(gx² + gy²) * 255.0) as u8`. -/
theorem magnitudeByte_eq_floor_sqrt (gx gy : ℚ) :
    magnitudeByte gx gy =
      min 255 (⌊Real.sqrt ((gx ^ 2 + gy ^ 2 : ℚ) : ℝ) * 255⌋).toNat := by
  have hs : (0 : ℚ) ≤ gx ^ 2 + gy ^ 2 := by positivity
  have hsR : (0 : ℝ) ≤ ((gx ^ 2 + gy ^ 2 : ℚ) : ℝ) := by exact_mod_cast hs
  have hmul : Real.sqrt ((gx ^ 2 + gy ^ 2 : ℚ) : ℝ) * 255 =
      Real.sqrt (((gx ^ 2 + gy ^ 2) * 65025 : ℚ) : ℝ) := by
    rw [show (((gx ^ 2 + gy ^ 2) * 65025 : ℚ) : ℝ) =
        ((gx ^ 2 + gy ^ 2 : ℚ) : ℝ) * 255 ^ 2 by push_cast; ring,
      Real.sqrt_mul hsR, Real.sqrt_sq (by norm_num : (0 : ℝ) ≤ 255)]
  rw [magnitudeByte, u8FloorSqrt_eq, hmul,
    floor_sqrt_toNat _ (by positivity), Rat.floor_cast]

/-- Recover the full buffer from the pointwise description: if every pixel
reads back 0, the buffer is all zeros. -/
theorem data_eq_replicate_zero (out : Grid) (w h : ℕ) (hw0 : 0 < w)
    (hwidth : out.width = w) (hheight : out.height = h)
    (hlen : out.data.length = w * h)
    (hget : ∀ a b : ℕ, a < w → b < h → out.get_pixel a b = some 0) :
    out.data = List.replicate (w * h) 0 := by
  apply List.eq_replicate_iff.mpr
  refine ⟨hlen, ?_⟩
  intro s hs
  obtain ⟨i, hi, hval⟩ := List.getElem_of_mem hs
  have hiwh : i < w * h := by rw [← hlen]; exact hi
  have ha : i % w < w := Nat.mod_lt i hw0
  have hb : i / w < h := Nat.div_lt_of_lt_mul hiwh
  have hidx : i / w * w + i % w = i := by
    rw [Nat.mul_comm (i / w) w]
    exact Nat.div_add_mod i w
  have := hget (i % w) (i / w) ha hb
  rw [Grid.get_pixel, if_pos (by rw [hwidth, hheight]; exact And.intro ha hb)] at this
  rw [hwidth, hidx] at this
  rw [List.getElem?_eq_getElem hi, hval] at this
  exact Option.some.inj this

/-- Two grids with equal fields are equal. -/
theorem grid_ext {g g' : Grid} (hw : g.width = g'.width) (hh : g.height = g'.height)
    (hd : g.data = g'.data) : g = g' := by
  cases g
  cases g'
  simp only at hw hh hd
  rw [hw, hh, hd]

/-! ## The claims -/

/-- C6: for every 3×3 kernel and every 3×3 window, `convolve` returns the
sum of the nine pointwise products divided by the fixed constant 8. -/
theorem convolve_sum_of_products
    (k11 k12 k13 k21 k22 k23 k31 k32 k33 p11 p12 p13 p21 p22 p23 p31 p32 p33 : ℚ) :
    convolve [[k11, k12, k13], [k21, k22, k23], [k31, k32, k33]]
        [[p11, p12, p13], [p21, p22, p23], [p31, p32, p33]] =
      (k11 * p11 + k12 * p12 + k13 * p13 + k21 * p21 + k22 * p22 + k23 * p23 +
        k31 * p31 + k32 * p32 + k33 * p33) / 8 := by
  simp only [convolve, List.zip_cons_cons, List.zip_nil_left, List.zip_nil_right,
    List.map_cons, List.map_nil, List.flatten, List.append_nil, List.sum_cons,
    List.sum_nil, List.sum_append]
  ring

/-- C7 (amended: the grid must be nonempty — on a grid with `width = 0` or
`height = 0` the clamp bound `dim as i32 - 1` wraps to a huge `u32` and the
inner `get_pixel` panics): on every wellformed grid with `width ≥ 1` and
`height ≥ 1`, the extended read succeeds for all `i32` coordinates, however
far out of range. -/
theorem get_never_fails (g : Grid) (hwf : Wellformed g) (hw1 : 1 ≤ g.width)
    (hh1 : 1 ≤ g.height) (x y : ℤ) :
    (g.get_pixel_luma_extended x y).isSome = true := by
  obtain ⟨s, -, heq⟩ := get_luma_eq g hwf.1 hw1 hwf.2.2.1 hh1 hwf.2.2.2 x y
  rw [heq]
  rfl

/-- C7 counterexample: on the empty grid (`width = height = 0`, a legal
intensity grid per the data model) the extended read fails: the clamp
produces `u32::MAX` and `get_pixel` panics. -/
theorem get_never_fails_cex :
    (Grid.mk 0 0 []).get_pixel_luma_extended 0 0 = none := by decide

theorem get_never_fails_witness :
    ((Grid.mk 1 1 [7]).get_pixel_luma_extended (-999) 12345).isSome = true :=
  get_never_fails (Grid.mk 1 1 [7]) (by decide) (by decide) (by decide) (-999) 12345

/-- C8: on a grid with a zero dimension the filter performs no iterations
and returns the untouched (empty) clone with the same dimensions. -/
theorem sobel_degenerate_empty (g : Grid) (hwf : Wellformed g)
    (hdeg : g.width = 0 ∨ g.height = 0) :
    sobel_filter g = some g ∧ g.data = [] := by
  refine ⟨sobel_filter_degenerate g hdeg, ?_⟩
  apply List.eq_nil_of_length_eq_zero
  rw [hwf.1]
  rcases hdeg with h | h <;> rw [h] <;> simp

theorem sobel_degenerate_empty_witness :
    sobel_filter (Grid.mk 0 3 []) = some (Grid.mk 0 3 []) ∧ (Grid.mk 0 3 []).data = [] :=
  sobel_degenerate_empty (Grid.mk 0 3 []) (by decide) (Or.inl rfl)

/-- C3: whatever grid `sobel_filter` returns has exactly the input's width
and height. -/
theorem sobel_dimension_preservation (g out : Grid) (h : sobel_filter g = some out) :
    out.width = g.width ∧ out.height = g.height :=
  sobel_filter_dims h

theorem sobel_dimension_preservation_witness :
    (sobel_filter (Grid.mk 2 1 [5, 5])).map Grid.width = some 2 ∧
      (sobel_filter (Grid.mk 2 1 [5, 5])).map Grid.height = some 1 := by
  obtain ⟨out, hout, -, -, -, -⟩ := sobel_filter_spec (Grid.mk 2 1 [5, 5])
    (by decide) (by decide) (by decide) (by decide) (by decide)
  obtain ⟨hw, hh⟩ := sobel_dimension_preservation _ _ hout
  rw [hout, Option.map_some', Option.map_some', hw, hh]
  exact ⟨rfl, rfl⟩

/-- C4: the filter never mutates its input: running the loop on the state
`⟨input, clone⟩` keeps the input component identical, and the result
component is exactly the functional `sobel_filter` output. -/
theorem sobel_no_input_mutation (g : Grid) (s : SobelSt)
    (h : sobel_filter_state g = some s) :
    s.input = g ∧ sobel_filter g = some s.result := by
  rw [sobel_filter_state_eq] at h
  cases hr : sobel_filter g with
  | none => rw [hr] at h; cases h
  | some out =>
    rw [hr, Option.map_some'] at h
    have hs := Option.some.inj h
    rw [← hs]
    exact ⟨rfl, rfl⟩

theorem sobel_no_input_mutation_witness :
    (sobel_filter_state (Grid.mk 1 2 [3, 3])).map SobelSt.input = some (Grid.mk 1 2 [3, 3]) ∧
      (sobel_filter_state (Grid.mk 1 2 [3, 3])).map SobelSt.result =
        sobel_filter (Grid.mk 1 2 [3, 3]) := by
  obtain ⟨out, hout, -, -, -, -⟩ := sobel_filter_spec (Grid.mk 1 2 [3, 3])
    (by decide) (by decide) (by decide) (by decide) (by decide)
  have hst : sobel_filter_state (Grid.mk 1 2 [3, 3]) =
      some ⟨Grid.mk 1 2 [3, 3], out⟩ := by
    rw [sobel_filter_state_eq, hout, Option.map_some']
  obtain ⟨h1, h2⟩ := sobel_no_input_mutation _ _ hst
  rw [hst, Option.map_some', Option.map_some']
  exact ⟨by rw [h1], by rw [← h2]⟩

/-- C10: whenever the exact gradient magnitude `√(gx² + gy²)` exceeds 1
(so the intermediate `magnitude * 255` exceeds 255), the stored byte is
exactly 255: the `as u8` write-back saturates at the top of the range. -/
theorem put_saturates_above_one (gx gy : ℚ)
    (h : 1 < Real.sqrt ((gx ^ 2 + gy ^ 2 : ℚ) : ℝ)) :
    magnitudeByte gx gy = 255 := by
  have hsle : (1 : ℝ) < ((gx ^ 2 + gy ^ 2 : ℚ) : ℝ) := by
    by_contra hc
    push_neg at hc
    have := Real.sqrt_le_one.mpr hc
    linarith
  have hq : (1 : ℚ) < gx ^ 2 + gy ^ 2 := by exact_mod_cast hsle
  have hfl : (65025 : ℤ) ≤ ⌊(gx ^ 2 + gy ^ 2) * 65025⌋ := by
    apply Int.le_floor.mpr
    push_cast
    nlinarith
  have hge : 65025 ≤ (⌊(gx ^ 2 + gy ^ 2) * 65025⌋).toNat := by omega
  rw [magnitudeByte]
  exact u8FloorSqrt_sat hge

theorem put_saturates_above_one_witness : magnitudeByte 2 0 = 255 := by
  apply put_saturates_above_one
  rw [show (((2 : ℚ) ^ 2 + (0 : ℚ) ^ 2 : ℚ) : ℝ) = 2 ^ 2 by push_cast; norm_num]
  rw [Real.sqrt_sq (by norm_num : (0 : ℝ) ≤ 2)]
  norm_num

/-- C1 (amended: both dimensions must be below `2^31` — for a dimension of
`2^31` or more, `width as i32` wraps to a nonpositive bound, the loop body
never runs, and the unfiltered clone is returned): for every wellformed
uniform grid with `width, height < 2^31`, `sobel_filter` returns the
all-zero grid of the same dimensions. -/
theorem sobel_uniform_zero (g : Grid) (v : ℕ) (hwf : Wellformed g)
    (hw2 : g.width < 2 ^ 31) (hh2 : g.height < 2 ^ 31)
    (hu : ∀ s ∈ g.data, s = v) :
    sobel_filter g =
      some (Grid.mk g.width g.height (List.replicate (g.width * g.height) 0)) := by
  by_cases hdeg : g.width = 0 ∨ g.height = 0
  · rw [sobel_filter_degenerate g hdeg]
    have hwh : g.width * g.height = 0 := by
      rcases hdeg with h | h <;> rw [h] <;> simp
    have hd : g.data = [] := by
      apply List.eq_nil_of_length_eq_zero
      rw [hwf.1, hwh]
    exact congrArg some (grid_ext rfl rfl (by rw [hd, hwh, List.replicate_zero]))
  · push_neg at hdeg
    have hw1 : 1 ≤ g.width := by omega
    have hh1 : 1 ≤ g.height := by omega
    obtain ⟨out, hout, hw', hh', hl', hchar⟩ :=
      sobel_filter_spec g hwf.1 hw1 hw2 hh1 hh2
    have hbyte : ∀ a b : ℕ, a < g.width → b < g.height → out.get_pixel a b = some 0 := by
      intro a b ha hb
      rw [hchar a b ha hb,
        sobelByteAt_uniform g hu hwf.1 hw1 hwf.2.2.1 hh1 hwf.2.2.2 a b]
    have hdata := data_eq_replicate_zero out g.width g.height (by omega) hw' hh'
      (hl'.trans hwf.1) hbyte
    rw [hout]
    exact congrArg some (grid_ext hw' hh' hdata)

/-- C1 counterexample: the uniform grid of width `2^31`, height 1 and
constant sample 7 is a legal intensity grid, but `width as i32 = -2^31`
empties the loop, so `sobel_filter` returns the clone, whose pixel `(0,0)`
still reads 7, not 0. -/
theorem sobel_uniform_zero_cex :
    sobel_filter bigUniformGrid = some bigUniformGrid ∧
      bigUniformGrid.get_pixel 0 0 = some 7 ∧
      bigUniformGrid.get_pixel 0 0 ≠ some 0 := by
  have h2 : bigUniformGrid.get_pixel 0 0 = some 7 := by
    rw [Grid.get_pixel, if_pos (by constructor <;> decide)]
    show bigUniformGrid.data[0 * bigUniformGrid.width + 0]? = some 7
    rw [show 0 * bigUniformGrid.width + 0 = 0 by ring,
      show bigUniformGrid.data = List.replicate (2 ^ 31) 7 from rfl]
    exact List.getElem?_replicate_of_lt (by norm_num)
  refine ⟨?_, h2, by rw [h2]; simp⟩
  rw [sobel_filter,
    show (wrapI32 (bigUniformGrid.width : ℤ)).toNat = 0 from by decide,
    List.range_zero, List.foldlM_nil]
  rfl

theorem sobel_uniform_zero_witness :
    sobel_filter (Grid.mk 2 2 [9, 9, 9, 9]) =
      some (Grid.mk 2 2 (List.replicate (2 * 2) 0)) :=
  sobel_uniform_zero (Grid.mk 2 2 [9, 9, 9, 9]) 9 (by decide) (by decide) (by decide)
    (by decide)

/-- C5 (amended: both dimensions must also be below `2^31` — for a width in
`(2^31, 2^32)` the clamp bound `width as i32 - 1` is negative, so every
read lands on column `width - 1` instead of the clamped column): on a
wellformed grid with `1 ≤ width, height < 2^31` the extended read clamps
`x` into `[0, width-1]` and `y` into `[0, height-1]` (plain integer clamp)
and returns the stored sample divided by 255; in particular the three
out-of-bounds window offsets at corner `(0,0)` all equal the normalized
value at `(0,0)`. -/
theorem get_clamp_divides (g : Grid) (hwf : Wellformed g)
    (hw1 : 1 ≤ g.width) (hw2 : g.width < 2 ^ 31)
    (hh1 : 1 ≤ g.height) (hh2 : g.height < 2 ^ 31) (x y : ℤ) :
    g.get_pixel_luma_extended x y =
      (g.get_pixel (min (max x 0) ((g.width : ℤ) - 1)).toNat
        (min (max y 0) ((g.height : ℤ) - 1)).toNat).map (fun (s : ℕ) => (s : ℚ) / 255) ∧
    g.get_pixel_luma_extended (-1) (-1) = g.get_pixel_luma_extended 0 0 ∧
    g.get_pixel_luma_extended (-1) 0 = g.get_pixel_luma_extended 0 0 ∧
    g.get_pixel_luma_extended 0 (-1) = g.get_pixel_luma_extended 0 0 := by
  have hcw := clampCoord_eq_spec hw1 hw2
  have hch := clampCoord_eq_spec hh1 hh2
  have hcwx : clampCoord g.width (-1) = clampCoord g.width 0 := by
    rw [hcw, hcw]; omega
  have hchy : clampCoord g.height (-1) = clampCoord g.height 0 := by
    rw [hch, hch]; omega
  refine ⟨?_, ?_, ?_, ?_⟩
  · rw [Grid.get_pixel_luma_extended, hcw x, hch y]
  · rw [Grid.get_pixel_luma_extended, Grid.get_pixel_luma_extended, hcwx, hchy]
  · rw [Grid.get_pixel_luma_extended, Grid.get_pixel_luma_extended, hcwx]
  · rw [Grid.get_pixel_luma_extended, Grid.get_pixel_luma_extended, hchy]

/-- C5 counterexample: on the legal grid of width `2^31 + 1` whose samples
are all 0 except the last one (7), the extended read at in-range `(0,0)`
returns `7/255` — the wrapped clamp bound sends it to column `width - 1` —
while the specified clamp-then-read yields `0`. -/
theorem get_clamp_divides_cex :
    wideGrid.get_pixel_luma_extended 0 0 = some ((7 : ℚ) / 255) ∧
      (wideGrid.get_pixel (min (max (0 : ℤ) 0) ((wideGrid.width : ℤ) - 1)).toNat
        (min (max (0 : ℤ) 0) ((wideGrid.height : ℤ) - 1)).toNat).map
          (fun (s : ℕ) => (s : ℚ) / 255) = some 0 ∧
      ((7 : ℚ) / 255 : ℚ) ≠ 0 := by
  refine ⟨?_, ?_, by norm_num⟩
  · rw [Grid.get_pixel_luma_extended,
      show clampCoord wideGrid.width 0 = 2 ^ 31 from by decide,
      show clampCoord wideGrid.height 0 = 0 from by decide,
      Grid.get_pixel, if_pos (by constructor <;> decide)]
    rw [show 0 * wideGrid.width + 2 ^ 31 = 2 ^ 31 by ring]
    rw [show wideGrid.data = List.replicate (2 ^ 31) 0 ++ [7] from rfl,
      List.getElem?_append_right (Nat.le_of_eq (List.length_replicate _ _)),
      show (2 ^ 31) - (List.replicate (2 ^ 31) (0 : ℕ)).length = 0 by
        rw [List.length_replicate, Nat.sub_self]]
    rfl
  · rw [show (min (max (0 : ℤ) 0) ((wideGrid.width : ℤ) - 1)).toNat = 0 from by decide,
      show (min (max (0 : ℤ) 0) ((wideGrid.height : ℤ) - 1)).toNat = 0 from by decide,
      Grid.get_pixel, if_pos (by constructor <;> decide)]
    rw [show 0 * wideGrid.width + 0 = 0 by ring]
    rw [show wideGrid.data = List.replicate (2 ^ 31) 0 ++ [7] from rfl,
      List.getElem?_append_left (by rw [List.length_replicate]; norm_num),
      List.getElem?_replicate_of_lt (by norm_num)]
    norm_num

theorem get_clamp_divides_witness :
    (Grid.mk 2 2 [10, 20, 30, 40]).get_pixel_luma_extended (-5) 7 =
      ((Grid.mk 2 2 [10, 20, 30, 40]).get_pixel
        (min (max (-5 : ℤ) 0) (((2 : ℕ) : ℤ) - 1)).toNat
        (min (max (7 : ℤ) 0) (((2 : ℕ) : ℤ) - 1)).toNat).map (fun (s : ℕ) => (s : ℚ) / 255) ∧
    (Grid.mk 2 2 [10, 20, 30, 40]).get_pixel_luma_extended (-1) (-1) =
      (Grid.mk 2 2 [10, 20, 30, 40]).get_pixel_luma_extended 0 0 ∧
    (Grid.mk 2 2 [10, 20, 30, 40]).get_pixel_luma_extended (-1) 0 =
      (Grid.mk 2 2 [10, 20, 30, 40]).get_pixel_luma_extended 0 0 ∧
    (Grid.mk 2 2 [10, 20, 30, 40]).get_pixel_luma_extended 0 (-1) =
      (Grid.mk 2 2 [10, 20, 30, 40]).get_pixel_luma_extended 0 0 :=
  get_clamp_divides (Grid.mk 2 2 [10, 20, 30, 40]) (by decide) (by decide) (by decide)
    (by decide) (by decide) (-5) 7

/-- C9 (amended: this describes the conversion only while `v * 255 < 256` —
for larger products the `as u8` cast saturates to 255 instead of storing
the truncation, see the counterexample): on a wellformed nonempty grid
with dimensions below `2^31`, at in-range coordinates, `put` with a
nonnegative `v` satisfying `v * 255 < 256` stores exactly
`⌊v * 255⌋` — truncation toward zero, not rounding to nearest. -/
theorem put_truncates (g : Grid) (hwf : Wellformed g)
    (hw2 : g.width < 2 ^ 31) (hh2 : g.height < 2 ^ 31)
    (x y : ℤ) (hx0 : 0 ≤ x) (hxw : x < g.width) (hy0 : 0 ≤ y) (hyh : y < g.height)
    (v : ℚ) (hv0 : 0 ≤ v) (hv1 : v * 255 < 256) :
    (g.put_pixel_luma_extended x y v).map (fun r => r.get_pixel x.toNat y.toNat) =
      some (some ⌊v * 255⌋.toNat) := by
  have hcx : clampCoord g.width x = x.toNat := clampCoord_self hw2 hx0 hxw
  have hcy : clampCoord g.height y = y.toNat := clampCoord_self hh2 hy0 hyh
  have hxw' : x.toNat < g.width := by omega
  have hyh' : y.toNat < g.height := by omega
  have hidx : y.toNat * g.width + x.toNat < g.data.length := by
    rw [hwf.1]; exact index_lt hxw' hyh'
  have hbyte : f32AsU8 (v * 255) = ⌊v * 255⌋.toNat := by
    rw [f32AsU8]
    have h1 : ⌊v * 255⌋ < 256 := Int.floor_lt.mpr (by exact_mod_cast hv1)
    omega
  rw [Grid.put_pixel_luma_extended, hcx, hcy, Grid.put_pixel,
    if_pos (And.intro hxw' hyh'), if_pos hidx, Option.map_some']
  have hres := get_pixel_set g hxw' hyh' hxw' hyh' hwf.1 (f32AsU8 (v * 255))
  rw [hres, if_pos (And.intro rfl rfl), hbyte]

/-- C9 counterexample: at `v = 2` (so `v * 255 = 510`), the stored sample
is the saturated 255, not the truncation 510 the claim would require for
every nonnegative `v`. -/
theorem put_truncates_cex :
    ((Grid.mk 1 1 [0]).put_pixel_luma_extended 0 0 2).map (fun r => r.get_pixel 0 0) =
      some (some 255) ∧ ⌊(2 : ℚ) * 255⌋.toNat = 510 ∧ (255 : ℕ) ≠ 510 := by
  have hfl : ⌊(2 : ℚ) * 255⌋ = 510 := by
    rw [show (2 : ℚ) * 255 = ((510 : ℤ) : ℚ) by norm_num, Int.floor_intCast]
  refine ⟨?_, by rw [hfl]; rfl, by decide⟩
  have hb : f32AsU8 ((2 : ℚ) * 255) = 255 := by
    rw [f32AsU8, hfl]
    rfl
  rw [Grid.put_pixel_luma_extended, hb]
  decide

/-- C9 witness at the spec's own example: `v * 255 = 254.9` stores 254. -/
theorem put_truncates_witness :
    ((Grid.mk 1 1 [0]).put_pixel_luma_extended 0 0 (2549 / 2550)).map
      (fun r => r.get_pixel (0 : ℤ).toNat (0 : ℤ).toNat) = some (some 254) := by
  have h := put_truncates (Grid.mk 1 1 [0]) (by decide) (by decide) (by decide) 0 0
    (by norm_num) (by norm_num) (by norm_num) (by norm_num) (2549 / 2550)
    (by norm_num) (by norm_num)
  rw [h]
  have hfl : ⌊(2549 / 2550 : ℚ) * 255⌋ = 254 := by
    rw [show (2549 / 2550 : ℚ) * 255 = 2549 / 10 by norm_num, Int.floor_eq_iff]
    constructor <;> norm_num
  rw [hfl]
  rfl

/-- C2: on the 3×3 grid with 255 at the center and 0 elsewhere, the window
at `(1,1)` is the normalized `[[0,0,0],[0,1,0],[0,0,0]]`, both convolutions
return `0/8 = 0`, and the output pixel at `(1,1)` is 0. -/
theorem sobel_cross_center :
    windowAt crossGrid 1 1 = some [[0, 0, 0], [0, 1, 0], [0, 0, 0]] ∧
    convolve SOBEL_KERNEL_X [[0, 0, 0], [0, 1, 0], [0, 0, 0]] = 0 ∧
    convolve SOBEL_KERNEL_Y [[0, 0, 0], [0, 1, 0], [0, 0, 0]] = 0 ∧
    (sobel_filter crossGrid).map (fun out => out.get_pixel 1 1) = some (some 0) := by
  have e1 : crossGrid.get_pixel_luma_extended (1 - 1) (1 - 1) = some 0 := by
    rw [Grid.get_pixel_luma_extended, show crossGrid.get_pixel
      (clampCoord crossGrid.width (1 - 1)) (clampCoord crossGrid.height (1 - 1)) =
        some 0 from by decide, Option.map_some']
    norm_num
  have e2 : crossGrid.get_pixel_luma_extended (1 - 1) 1 = some 0 := by
    rw [Grid.get_pixel_luma_extended, show crossGrid.get_pixel
      (clampCoord crossGrid.width (1 - 1)) (clampCoord crossGrid.height 1) =
        some 0 from by decide, Option.map_some']
    norm_num
  have e3 : crossGrid.get_pixel_luma_extended (1 - 1) (1 + 1) = some 0 := by
    rw [Grid.get_pixel_luma_extended, show crossGrid.get_pixel
      (clampCoord crossGrid.width (1 - 1)) (clampCoord crossGrid.height (1 + 1)) =
        some 0 from by decide, Option.map_some']
    norm_num
  have e4 : crossGrid.get_pixel_luma_extended 1 (1 - 1) = some 0 := by
    rw [Grid.get_pixel_luma_extended, show crossGrid.get_pixel
      (clampCoord crossGrid.width 1) (clampCoord crossGrid.height (1 - 1)) =
        some 0 from by decide, Option.map_some']
    norm_num
  have e5 : crossGrid.get_pixel_luma_extended 1 1 = some 1 := by
    rw [Grid.get_pixel_luma_extended, show crossGrid.get_pixel
      (clampCoord crossGrid.width 1) (clampCoord crossGrid.height 1) =
        some 255 from by decide, Option.map_some']
    norm_num
  have e6 : crossGrid.get_pixel_luma_extended 1 (1 + 1) = some 0 := by
    rw [Grid.get_pixel_luma_extended, show crossGrid.get_pixel
      (clampCoord crossGrid.width 1) (clampCoord crossGrid.height (1 + 1)) =
        some 0 from by decide, Option.map_some']
    norm_num
  have e7 : crossGrid.get_pixel_luma_extended (1 + 1) (1 - 1) = some 0 := by
    rw [Grid.get_pixel_luma_extended, show crossGrid.get_pixel
      (clampCoord crossGrid.width (1 + 1)) (clampCoord crossGrid.height (1 - 1)) =
        some 0 from by decide, Option.map_some']
    norm_num
  have e8 : crossGrid.get_pixel_luma_extended (1 + 1) 1 = some 0 := by
    rw [Grid.get_pixel_luma_extended, show crossGrid.get_pixel
      (clampCoord crossGrid.width (1 + 1)) (clampCoord crossGrid.height 1) =
        some 0 from by decide, Option.map_some']
    norm_num
  have e9 : crossGrid.get_pixel_luma_extended (1 + 1) (1 + 1) = some 0 := by
    rw [Grid.get_pixel_luma_extended, show crossGrid.get_pixel
      (clampCoord crossGrid.width (1 + 1)) (clampCoord crossGrid.height (1 + 1)) =
        some 0 from by decide, Option.map_some']
    norm_num
  have hwin : windowAt crossGrid 1 1 = some [[0, 0, 0], [0, 1, 0], [0, 0, 0]] := by
    rw [windowAt, e1, e2, e3, e4, e5, e6, e7, e8, e9]
    simp only [Option.bind_eq_bind, Option.some_bind]
    rfl
  have hkx : convolve SOBEL_KERNEL_X [[0, 0, 0], [0, 1, 0], [0, 0, 0]] = 0 := by
    simp only [convolve, SOBEL_KERNEL_X, List.zip_cons_cons, List.zip_nil_left,
      List.zip_nil_right, List.map_cons, List.map_nil, List.flatten, List.append_nil,
      List.sum_cons, List.sum_nil, List.sum_append]
    norm_num
  have hky : convolve SOBEL_KERNEL_Y [[0, 0, 0], [0, 1, 0], [0, 0, 0]] = 0 := by
    simp only [convolve, SOBEL_KERNEL_Y, List.zip_cons_cons, List.zip_nil_left,
      List.zip_nil_right, List.map_cons, List.map_nil, List.flatten, List.append_nil,
      List.sum_cons, List.sum_nil, List.sum_append]
    norm_num
  refine ⟨hwin, hkx, hky, ?_⟩
  obtain ⟨out, hout, -, -, -, hchar⟩ := sobel_filter_spec crossGrid
    (by decide) (by decide) (by decide) (by decide) (by decide)
  have hb : sobelByteAt crossGrid 1 1 = 0 := by
    rw [sobelByteAt, Nat.cast_one, hwin]
    show magnitudeByte (convolve SOBEL_KERNEL_X _) (convolve SOBEL_KERNEL_Y _) = 0
    rw [hkx, hky]
    exact magnitudeByte_zero
  rw [hout, Option.map_some', hchar 1 1 (by decide) (by decide), hb]
